import Mathlib

/-!
Shallow embedding of the GLKit shader generator
(`src/Frameworks/GLKit/ShaderGen.h` of WinObjC).

The header declares the generator-node hierarchy (`ShaderNode` and its
variants) and the generation context (`ShaderContext`).  The only `generate`
body present in the header is the base class default (`{ return false; }`,
line 91); the bodies of the variants and of `ShaderContext` are declared but
not part of the sources, so they are modelled from the specification
(`spec.md`), faithful to its words, as the doc comments below record.
-/

/-- Variable type tags of the shader generator.  The enumeration lives in
`ShaderInfo.h` (outside the sources); the spec treats it as an opaque tag, and
so do we. -/
inductive GLKShaderVarType where
  | GLKS_INVALID
  | GLKS_FLOAT
  | GLKS_FLOAT2
  | GLKS_FLOAT3
  | GLKS_FLOAT4
  | GLKS_MAT4
  | GLKS_SAMPLER2D
  | GLKS_SAMPLERCUBE
deriving DecidableEq, Repr

/-- The variable layout (`ShaderLayout`, from `ShaderInfo.h`, outside the
sources).  Modelled from the spec: "a lookup table from variable name to
type/availability, queried by every node to test `is this input present`";
only availability matters to the nodes, so the model is the list of names
present. -/
abbrev ShaderLayout := List String

/-- `TempInfo` (ShaderGen.h lines 36-44): the result type tag and generated
expression body of one temporary. -/
structure TempInfo where
  type : GLKShaderVarType
  body : String
deriving DecidableEq, Repr

/-- Substring occurrence test used to model the textual dependency check:
`occursIn n s` is true when the (nonempty) string `n` occurs contiguously in
`s`. -/
def occursIn (needle hay : String) : Bool :=
  !needle.isEmpty && hay.toList.tails.any (fun t => needle.toList.isPrefixOf t)

/-- Modelled from the spec: `TempInfo::dependsOn` (declared ShaderGen.h line
40, body not in the sources) — "a dependency test: true if the body
textually/referentially depends on any name in a given set of names". -/
def TempInfo.dependsOn (t : TempInfo) (set : List String) : Bool :=
  set.any (fun n => occursIn n t.body)

/-- `TempMap` (ShaderGen.h line 45): the per-stage table of temporaries.
Modelled as an association list in registration order with unique keys (the
spec §3: "ordered mapping from temporary name to TempInfo; insertion order is
the default emission order"; "temp names are unique per stage per
context"). -/
abbrev TempMap := List (String × TempInfo)

/-- Modelled from the spec: the unchecked insertion used by
`ShaderContext::addTempFunc`/`addTempVal` (declared ShaderGen.h lines 72-73,
bodies not in the sources; the header notes "neither of these check for
overwriting").  A name already present is silently overwritten in place
(last write wins); otherwise the entry is appended in registration order. -/
def tempInsert (m : TempMap) (name : String) (info : TempInfo) : TempMap :=
  if m.any (fun p => p.1 == name) then
    m.map (fun p => if p.1 = name then (name, info) else p)
  else
    m ++ [(name, info)]

/-- The material (`ShaderMaterial`, outside the sources).  Modelled from the
spec: "read-only key→flag/value lookup, queried by name, default-valued when
absent"; only the integer feature flags ("ivars") are consumed by the
core. -/
abbrev ShaderMaterial := List (String × Int)

/-- The mutable state of `ShaderContext` (ShaderGen.h lines 49-78) during one
generation pass: the material, the stage flag, and the two pairs of
per-stage temporary tables. -/
structure ShaderContext where
  inputMaterial : ShaderMaterial
  vertexStage : Bool
  vsTemps : TempMap
  vsTempVals : TempMap
  psTemps : TempMap
  psTempVals : TempMap
deriving DecidableEq, Repr

/-- Modelled from the spec: `ShaderContext::getIVar` (declared ShaderGen.h
line 75, body not in the sources) — "performs the feature-flag lookup …,
returning the default when absent". -/
def ShaderContext.getIVar (c : ShaderContext) (name : String) (dflt : Int) : Int :=
  match c.inputMaterial.lookup name with
  | some x => x
  | none => dflt

/-- Modelled from the spec: `ShaderContext::addTempVal` (declared ShaderGen.h
line 73, body not in the sources) — registers a value temporary in the
active stage's table, without checking for overwriting. -/
def ShaderContext.addTempVal (c : ShaderContext) (t : GLKShaderVarType)
    (name body : String) : ShaderContext :=
  if c.vertexStage then
    { c with vsTempVals := tempInsert c.vsTempVals name ⟨t, body⟩ }
  else
    { c with psTempVals := tempInsert c.psTempVals name ⟨t, body⟩ }

/-- Modelled from the spec: `ShaderContext::addTempFunc` (declared ShaderGen.h
line 72, body not in the sources) — same policy as `addTempVal` on the other
per-stage table. -/
def ShaderContext.addTempFunc (c : ShaderContext) (t : GLKShaderVarType)
    (name body : String) : ShaderContext :=
  if c.vertexStage then
    { c with vsTemps := tempInsert c.vsTemps name ⟨t, body⟩ }
  else
    { c with psTemps := tempInsert c.psTemps name ⟨t, body⟩ }

/-- The generator-node hierarchy (ShaderGen.h lines 82-332) as a closed
tagged variant, as the spec's design notes themselves propose.  The node
kinds the claims are about are embedded; each constructor's fields mirror
the corresponding C++ class's constructor arguments. -/
inductive ShaderNode where
  | base
  | ivarCheck (name : String) (node : ShaderNode)
  | varRef (name : String) (constantResult : String)
  | fallbackRef (first second constantResult : String)
  | fallbackNode (nodes : List ShaderNode)
  | posRef
  | additiveCombiner (subNodes : List ShaderNode)
  | op (n1 n2 : ShaderNode) (opName : String) (isOperator needsAll : Bool)
  | tempRef (t : GLKShaderVarType) (name : String) (body : ShaderNode)
  | affineBlend (blendNode n1 n2 : ShaderNode)

/-- Modelled from the spec: the text a `ShaderVarRef` emits for a variable
present in the layout — "it emits a reference to the variable". -/
def varText (name : String) : String := name

/-- Modelled from the spec: the text `ShaderPosRef` emits — "the vertex
position transformed by the model-view-projection matrix; has no failure
path". -/
def posText : String := "(mvp * position)"

/-- Modelled from the spec: the `+`-joining of the succeeding children's
fragments performed by `ShaderAdditiveCombiner`. -/
def joinPlus : List String → String
  | [] => ""
  | [f] => f
  | f :: rest => f ++ " + " ++ joinPlus rest

/-- Modelled from the spec: the blended formula `ShaderAffineBlend` emits
when the blend weight and both operands are available. -/
def blendText (w a b : String) : String :=
  "mix(" ++ a ++ ", " ++ b ++ ", " ++ w ++ ")"

mutual
/-- Modelled from the spec: `generate(outFragment, context, layout) ->
success` of each node variant (declared per class in ShaderGen.h, bodies not
in the sources), with the incoming `out` buffer, the context and the result
made explicit: the result is (success flag, out buffer after the call,
context after the call).  Per-variant behavior follows the spec's fallback
semantics (§4.1) and the header's own comments; the base-class default is
the inline body of ShaderGen.h line 91: `{ return false; }`, which touches
nothing. -/
def genNode (n : ShaderNode) (out : String) (c : ShaderContext)
    (v : ShaderLayout) : Bool × String × ShaderContext :=
  match n with
  | .base => (false, out, c)
  | .ivarCheck name node =>
      if c.getIVar name 0 == 0 then (false, out, c)
      else genNode node out c v
  | .varRef name constantResult =>
      if v.contains name then (true, varText name, c)
      else if constantResult == "" then (false, out, c)
      else (true, constantResult, c)
  | .fallbackRef first second constantResult =>
      if v.contains first then (true, varText first, c)
      else if v.contains second then (true, varText second, c)
      else if constantResult == "" then (false, out, c)
      else (true, constantResult, c)
  | .fallbackNode nodes => genFirst nodes out c v
  | .posRef => (true, posText, c)
  | .additiveCombiner subNodes =>
      let r := genFrags subNodes c v
      match r.1 with
      | [] => (false, out, r.2)
      | frags => (true, joinPlus frags, r.2)
  | .op n1 n2 opName isOperator needsAll =>
      let r1 := genNode n1 "" c v
      let r2 := genNode n2 "" r1.2.2 v
      if r1.1 && r2.1 then
        (true,
         if isOperator then "(" ++ r1.2.1 ++ " " ++ opName ++ " " ++ r2.2.1 ++ ")"
         else opName ++ "(" ++ r1.2.1 ++ ", " ++ r2.2.1 ++ ")",
         r2.2.2)
      else if needsAll then (false, out, r2.2.2)
      else if r1.1 then (true, r1.2.1, r2.2.2)
      else if r2.1 then (true, r2.2.1, r2.2.2)
      else (false, out, r2.2.2)
  | .tempRef t name body =>
      let r := genNode body "" c v
      if r.1 then (true, name, r.2.2.addTempVal t name r.2.1)
      else (false, out, r.2.2)
  | .affineBlend blendNode n1 n2 =>
      let rb := genNode blendNode "" c v
      let r1 := genNode n1 "" rb.2.2 v
      let r2 := genNode n2 "" r1.2.2 v
      if r2.1 then
        if rb.1 && r1.1 then (true, blendText rb.2.1 r1.2.1 r2.2.1, r2.2.2)
        else (true, r2.2.1, r2.2.2)
      else (false, out, r2.2.2)

/-- Modelled from the spec: `ShaderFallbackNode::generate` — "first child to
succeed wins; order matters; fail only if every child fails".  The context
is threaded through the children tried. -/
def genFirst (nodes : List ShaderNode) (out : String) (c : ShaderContext)
    (v : ShaderLayout) : Bool × String × ShaderContext :=
  match nodes with
  | [] => (false, out, c)
  | n :: rest =>
      let r := genNode n out c v
      if r.1 then r else genFirst rest out r.2.2 v

/-- Modelled from the spec: the child traversal of
`ShaderAdditiveCombiner::generate` — every child is generated in order into
a fresh buffer; failing children are dropped silently, and the fragments of
the succeeding children are collected in order. -/
def genFrags (nodes : List ShaderNode) (c : ShaderContext)
    (v : ShaderLayout) : List String × ShaderContext :=
  match nodes with
  | [] => ([], c)
  | n :: rest =>
      let r := genNode n "" c v
      let rs := genFrags rest r.2.2 v
      (if r.1 then r.2.1 :: rs.1 else rs.1, rs.2)
end

/-- First element of a list satisfying `p`, together with the remaining
elements in order. -/
def extractFirst (p : α → Bool) : List α → Option (α × List α)
  | [] => none
  | x :: xs =>
      if p x then some (x, xs)
      else (extractFirst p xs).map (fun r => (r.1, x :: r.2))

/-- A temporary is ready for emission when its body depends on the name of
no other pending temporary. -/
def readyEntry (e : String × TempInfo) (pending : TempMap) : Bool :=
  !(e.2.dependsOn ((pending.map Prod.fst).filter (fun n => n != e.1)))

/-- Fuel-driven core of the dependency ordering: repeatedly emit the first
pending temporary that is ready, `none` when the dependencies are circular
(no pending temporary is ready) or the fuel runs out. -/
def orderTempsAux : Nat → TempMap → Option TempMap
  | _, [] => some []
  | 0, _ :: _ => none
  | fuel + 1, m@(_ :: _) =>
      match extractFirst (fun e => readyEntry e m) m with
      | none => none
      | some (e, rest) => (orderTempsAux fuel rest).map (fun l => e :: l)

/-- Modelled from the spec: the emission order computed by
`ShaderContext::orderedTempVals` (declared ShaderGen.h line 62, body not in
the sources) — "temporaries are emitted in dependency order — a temporary
whose body references another temporary's name must be emitted after that
dependency; ties broken by original registration order". -/
def orderTemps (m : TempMap) : Option TempMap :=
  orderTempsAux m.length m

/-- One emitted temporary declaration. -/
def declText (usePrecision : Bool) (e : String × TempInfo) : String :=
  (if usePrecision then "highp " else "") ++ e.1 ++ " = " ++ e.2.body ++ ";\n"

/-- Modelled from the spec: the declaration block emitted by
`ShaderContext::orderedTempVals` — the declarations joined in the computed
dependency order (registration order when the ordering finds a cycle). -/
def orderedTempVals (m : TempMap) (usePrecision : Bool) : String :=
  String.join (((orderTemps m).getD m).map (declText usePrecision))

/-- The result of a whole-material generation (`GLKShaderPair`, declared
outside the sources).  Modelled from the spec: "a paired-program result
containing final vertex-stage and fragment-stage source text … plus the
`used outputs` layout per stage". -/
structure GLKShaderPair where
  vertexShader : String
  pixelShader : String
  vsUsedOutputs : ShaderLayout
  psUsedOutputs : ShaderLayout
deriving DecidableEq, Repr

/-- Modelled from the spec: the "used outputs" accumulator — the layout
variables "actually referenced" by the emitted source of a stage. -/
def usedOutputs (v : ShaderLayout) (src : String) : ShaderLayout :=
  v.filter (fun n => occursIn n src)

/-- A freshly constructed `ShaderContext` (ShaderGen.h lines 68-69): null
temporary tables, vertex-stage flag initially false. -/
def freshContext (m : ShaderMaterial) : ShaderContext :=
  ⟨m, false, [], [], [], []⟩

/-- Modelled from the spec: one stage pass of the protected
`ShaderContext::generate` (declared ShaderGen.h lines 64-65, body not in the
sources) — the stage's root node generates the body; on its failure the
stage fails and no source is produced; on success the stage source is the
ordered temporary block followed by the body. -/
def stageRun (root : ShaderNode) (c : ShaderContext) (v : ShaderLayout) :
    Option (String × ShaderContext) :=
  let r := genNode root "" c v
  if r.1 then some (r.2.1, r.2.2) else none

/-- Modelled from the spec: `ShaderContext::generate(ShaderMaterial&)`
(declared ShaderGen.h line 77, body not in the sources) — "runs two stage
passes (vertex then fragment)" from the given context; "failure of the root
node of a stage is fatal to that stage: generation for the whole material
fails and no partial source is returned". -/
def generateFrom (c : ShaderContext) (vsRoot psRoot : ShaderNode)
    (v : ShaderLayout) : Option GLKShaderPair :=
  match stageRun vsRoot { c with vertexStage := true } v with
  | none => none
  | some (vbody, c1) =>
      match stageRun psRoot { c1 with vertexStage := false } v with
      | none => none
      | some (pbody, c2) =>
          let vsrc := orderedTempVals c2.vsTempVals false ++ vbody
          let psrc := orderedTempVals c2.psTempVals true ++ pbody
          some ⟨vsrc, psrc, usedOutputs v vsrc, usedOutputs v psrc⟩

/-- Whole-material generation from a freshly constructed context, as the
spec's lifecycle prescribes ("a fresh context-level temporary state is
required per generation call"). -/
def generateMaterial (vsRoot psRoot : ShaderNode) (v : ShaderLayout)
    (m : ShaderMaterial) : Option GLKShaderPair :=
  generateFrom (freshContext m) vsRoot psRoot v

/-- C1: `ShaderVarRef::generate` resolves in exactly this order: a variable
present in the layout is emitted as a reference to the variable; otherwise a
constant supplied at construction is emitted exactly; otherwise the node
fails.  In particular, for a name absent from the layout but with a constant
supplied, the output fragment equals the constant. -/
theorem shaderVarRef_resolution_order (name constantResult out : String)
    (c : ShaderContext) (v : ShaderLayout) :
    (v.contains name = true →
      genNode (.varRef name constantResult) out c v = (true, varText name, c)) ∧
    (v.contains name = false → constantResult ≠ "" →
      genNode (.varRef name constantResult) out c v = (true, constantResult, c)) ∧
    (v.contains name = false → constantResult = "" →
      genNode (.varRef name constantResult) out c v = (false, out, c)) := by
  refine ⟨fun h => ?_, fun h h2 => ?_, fun h h2 => ?_⟩
  · have h' : name ∈ v := by simpa using h
    simp [genNode, h']
  · have h' : name ∉ v := by simpa using h
    simp [genNode, h', h2]
  · have h' : name ∉ v := by simpa using h
    simp [genNode, h', h2]

/-- Witness for C1 at a concrete input: the name is absent from the layout,
a constant was supplied, and the output equals the constant exactly. -/
theorem shaderVarRef_resolution_order_witness :
    genNode (.varRef "specColor" "vec4(1.0)") "old" (freshContext []) ["diffuseTex"] =
      (true, "vec4(1.0)", freshContext []) :=
  (shaderVarRef_resolution_order "specColor" "vec4(1.0)" "old" (freshContext [])
      ["diffuseTex"]).2.1 (by decide) (by decide)

/-- C10: the base-class `ShaderNode::generate` (the inline body of
ShaderGen.h line 91, `{ return false; }`) fails for every context, layout
and incoming buffer, modifying neither the output fragment nor the
context. -/
theorem shaderNode_base_always_fails (out : String) (c : ShaderContext)
    (v : ShaderLayout) :
    genNode .base out c v = (false, out, c) := rfl

/-- C4: `ShaderIVarCheck::generate` looks the flag up in the material with
default 0; a zero or absent flag fails the guard with a result independent
of the wrapped child (the child is never invoked) and an unchanged context;
a non-zero flag with a succeeding child emits the child's fragment. -/
theorem shaderIVarCheck_guard (name out : String) (c : ShaderContext)
    (v : ShaderLayout) :
    (c.getIVar name 0 = 0 →
      ∀ node : ShaderNode, genNode (.ivarCheck name node) out c v = (false, out, c)) ∧
    (c.getIVar name 0 ≠ 0 →
      ∀ (node : ShaderNode) (f : String) (c' : ShaderContext),
        genNode node out c v = (true, f, c') →
        genNode (.ivarCheck name node) out c v = (true, f, c')) := by
  constructor
  · intro h node
    simp [genNode, h]
  · intro h node f c' hchild
    simp [genNode, h, hchild]

/-- Witness for C4 at a concrete input: with `enableSpecular = 0` in the
material, the guard fails even though its child (`ShaderPosRef`, which has
no failure path) would succeed. -/
theorem shaderIVarCheck_guard_witness :
    genNode (.ivarCheck "enableSpecular" .posRef) "o"
        (freshContext [("enableSpecular", 0)]) ["x"] =
      (false, "o", freshContext [("enableSpecular", 0)]) :=
  (shaderIVarCheck_guard "enableSpecular" "o"
      (freshContext [("enableSpecular", 0)]) ["x"]).1 (by decide) .posRef

/-- C3: `ShaderOp::generate` — with `needsAll` true, the op succeeds only
when both children succeed and fails without emitting otherwise; with
`needsAll` false, either child succeeding is enough, and when exactly one
child succeeds the output equals that child's fragment alone with no
operator text inserted. -/
theorem shaderOp_needsAll_policy (n1 n2 : ShaderNode) (opName : String)
    (isOperator needsAll : Bool) (out : String) (c c1 c2 : ShaderContext)
    (v : ShaderLayout) (s1 s2 : Bool) (f1 f2 : String)
    (h1 : genNode n1 "" c v = (s1, f1, c1))
    (h2 : genNode n2 "" c1 v = (s2, f2, c2)) :
    (needsAll = true → (s1 = false ∨ s2 = false) →
      genNode (.op n1 n2 opName isOperator needsAll) out c v = (false, out, c2)) ∧
    (s1 = true → s2 = true →
      (genNode (.op n1 n2 opName isOperator needsAll) out c v).1 = true) ∧
    (needsAll = false → s1 = true → s2 = false →
      genNode (.op n1 n2 opName isOperator needsAll) out c v = (true, f1, c2)) ∧
    (needsAll = false → s1 = false → s2 = true →
      genNode (.op n1 n2 opName isOperator needsAll) out c v = (true, f2, c2)) ∧
    (s1 = false → s2 = false →
      genNode (.op n1 n2 opName isOperator needsAll) out c v = (false, out, c2)) := by
  refine ⟨?_, ?_, ?_, ?_, ?_⟩
  · rintro ha (hb | hb) <;> subst ha <;> subst hb <;>
      simp [genNode, h1, h2]
  · intro ha hb; subst ha; subst hb; simp [genNode, h1, h2]
  · intro ha hb hc; subst ha; subst hb; subst hc; simp [genNode, h1, h2]
  · intro ha hb hc; subst ha; subst hb; subst hc; simp [genNode, h1, h2]
  · intro ha hb; subst ha; subst hb; cases needsAll <;> simp [genNode, h1, h2]

/-- Witness for C3 at a concrete input: `needsAll = false`, the first child
fails, the second succeeds, and the output equals the second child's
fragment alone with no operator text. -/
theorem shaderOp_needsAll_policy_witness :
    genNode (.op .base .posRef "dot" false false) "o" (freshContext []) [] =
      (true, posText, freshContext []) :=
  (shaderOp_needsAll_policy .base .posRef "dot" false false "o"
      (freshContext []) (freshContext []) (freshContext []) [] false true
      "" posText rfl rfl).2.2.2.1 rfl rfl rfl

/-- C8: `ShaderAffineBlend::generate` requires only `n2` (per the header's
comment "if blend/n1 is not found, only n2 is used"): when the blend-weight
node or `n1` fails while `n2` succeeds, the node succeeds and its fragment
equals exactly `n2`'s fragment alone. -/
theorem shaderAffineBlend_optional (blendNode n1 n2 : ShaderNode) (out : String)
    (c cb c1 c2 : ShaderContext) (v : ShaderLayout) (sb s1 : Bool)
    (fb f1 f2 : String)
    (hb : genNode blendNode "" c v = (sb, fb, cb))
    (h1 : genNode n1 "" cb v = (s1, f1, c1))
    (h2 : genNode n2 "" c1 v = (true, f2, c2))
    (hfail : sb = false ∨ s1 = false) :
    genNode (.affineBlend blendNode n1 n2) out c v = (true, f2, c2) := by
  rcases hfail with h | h <;> subst h <;> simp [genNode, hb, h1, h2]

/-- Witness for C8 at a concrete input: the blend-weight node fails (a bare
base node), `n1` succeeds, `n2` succeeds, and the emitted fragment is
exactly `n2`'s fragment. -/
theorem shaderAffineBlend_optional_witness :
    genNode (.affineBlend .base .posRef (.varRef "lightColor" "")) "o"
        (freshContext []) ["lightColor"] =
      (true, varText "lightColor", freshContext []) :=
  shaderAffineBlend_optional .base .posRef (.varRef "lightColor" "") "o"
    (freshContext []) (freshContext []) (freshContext []) (freshContext [])
    ["lightColor"] false true "" posText (varText "lightColor")
    rfl rfl (by decide) (Or.inl rfl)

/-- C2: `ShaderAdditiveCombiner::generate` — every failing child is dropped
silently and the output fragment is the `+`-joined text of the succeeding
children's fragments; with no succeeding child the combiner fails (no `0`
and no empty fragment is emitted); with exactly one succeeding child the
fragment equals that child's fragment unmodified, with no stray `+`. -/
theorem shaderAdditiveCombiner_policy (subNodes : List ShaderNode) (out : String)
    (c c' : ShaderContext) (v : ShaderLayout) (frags : List String)
    (h : genFrags subNodes c v = (frags, c')) :
    (frags = [] → genNode (.additiveCombiner subNodes) out c v = (false, out, c')) ∧
    (frags ≠ [] →
      genNode (.additiveCombiner subNodes) out c v = (true, joinPlus frags, c')) ∧
    (∀ f, frags = [f] →
      genNode (.additiveCombiner subNodes) out c v = (true, f, c')) := by
  refine ⟨fun he => ?_, fun hne => ?_, fun f hf => ?_⟩
  · subst he; simp [genNode, h]
  · cases hf : frags with
    | nil => exact absurd hf hne
    | cons a l => subst hf; simp [genNode, h]
  · subst hf; simp [genNode, h, joinPlus]

/-- Witness for C2 at a concrete input: of three children the first and the
third fail, only the middle one succeeds, and the combiner emits exactly
that child's fragment unmodified. -/
theorem shaderAdditiveCombiner_policy_witness :
    genNode (.additiveCombiner [.base, .posRef, .varRef "missing" ""]) "o"
        (freshContext []) [] =
      (true, posText, freshContext []) :=
  (shaderAdditiveCombiner_policy [.base, .posRef, .varRef "missing" ""] "o"
      (freshContext []) (freshContext []) [] [posText] (by decide)).2.2
    posText rfl

/-- C6: generation is deterministic — two runs over the same material,
layout and generator trees, each from a context with fresh temporary-table
state (the stage flag may even differ), produce identical paired results:
byte-identical vertex and fragment source text and identical used-outputs
metadata. -/
theorem generate_deterministic (c1 c2 : ShaderContext) (vsRoot psRoot : ShaderNode)
    (v : ShaderLayout) (m : ShaderMaterial)
    (h1m : c1.inputMaterial = m) (h1a : c1.vsTemps = []) (h1b : c1.vsTempVals = [])
    (h1c : c1.psTemps = []) (h1d : c1.psTempVals = [])
    (h2m : c2.inputMaterial = m) (h2a : c2.vsTemps = []) (h2b : c2.vsTempVals = [])
    (h2c : c2.psTemps = []) (h2d : c2.psTempVals = []) :
    generateFrom c1 vsRoot psRoot v = generateFrom c2 vsRoot psRoot v := by
  have hctx : ({ c1 with vertexStage := true } : ShaderContext) =
      { c2 with vertexStage := true } := by
    cases c1; cases c2
    simp_all
  unfold generateFrom
  rw [hctx]

/-- Witness for C6 at a concrete input: two contexts with fresh temporary
state (one freshly constructed, one with the stage flag already set) give
the same generated pair. -/
theorem generate_deterministic_witness :
    generateFrom (freshContext [("lighting", 1)])
        (.tempRef .GLKS_FLOAT4 "t0" .posRef) (.varRef "color" "vec4(0)")
        ["color"] =
      generateFrom { freshContext [("lighting", 1)] with vertexStage := true }
        (.tempRef .GLKS_FLOAT4 "t0" .posRef) (.varRef "color" "vec4(0)")
        ["color"] :=
  generate_deterministic (freshContext [("lighting", 1)])
    { freshContext [("lighting", 1)] with vertexStage := true }
    (.tempRef .GLKS_FLOAT4 "t0" .posRef) (.varRef "color" "vec4(0)")
    ["color"] [("lighting", 1)] rfl rfl rfl rfl rfl rfl rfl rfl rfl rfl

/-- C7: whole-stage failure is atomic — if the root node of the vertex
stage fails from the start context, or the root node of the fragment stage
fails from the post-vertex context, `generateFrom` returns `none`, so the
caller receives no partial or guessed source text for that material. -/
theorem generate_root_failure_atomic (c : ShaderContext)
    (vsRoot psRoot : ShaderNode) (v : ShaderLayout) :
    ((genNode vsRoot "" { c with vertexStage := true } v).1 = false →
      generateFrom c vsRoot psRoot v = none) ∧
    (∀ (vbody : String) (c1 : ShaderContext),
      stageRun vsRoot { c with vertexStage := true } v = some (vbody, c1) →
      (genNode psRoot "" { c1 with vertexStage := false } v).1 = false →
      generateFrom c vsRoot psRoot v = none) := by
  constructor
  · intro h
    unfold generateFrom stageRun
    simp [h]
  · intro vbody c1 hv h
    unfold generateFrom
    rw [hv]
    unfold stageRun
    simp [h]

/-- Witness for C7 at a concrete input: a vertex tree whose root is a bare
base node (which always fails) makes the whole generation return `none`. -/
theorem generate_root_failure_atomic_witness :
    generateFrom (freshContext []) .base .posRef ["x"] = none :=
  (generate_root_failure_atomic (freshContext []) .base .posRef ["x"]).1 rfl

theorem extractFirst_eq_some {α : Type} {p : α → Bool} :
    ∀ {l : List α} {x : α} {rest : List α},
      extractFirst p l = some (x, rest) → p x = true ∧ l.Perm (x :: rest) := by
  intro l
  induction l with
  | nil => intro x rest h; simp [extractFirst] at h
  | cons a l ih =>
      intro x rest h
      by_cases hp : p a
      · simp [extractFirst, hp] at h
        obtain ⟨hx, hrest⟩ := h
        subst hx; subst hrest
        exact ⟨hp, List.Perm.refl _⟩
      · have h' : (extractFirst p l).map (fun r => (r.1, a :: r.2)) = some (x, rest) := by
          simpa [extractFirst, hp] using h
        cases hext : extractFirst p l with
        | none => rw [hext] at h'; simp at h'
        | some r =>
            obtain ⟨y, ys⟩ := r
            rw [hext] at h'
            simp only [Option.map_some', Option.some.injEq, Prod.mk.injEq] at h'
            obtain ⟨hx, hrest⟩ := h'
            subst hx; subst hrest
            obtain ⟨hpy, hperm⟩ := ih hext
            exact ⟨hpy, (hperm.cons a).trans (List.Perm.swap y a ys)⟩

theorem orderTempsAux_perm :
    ∀ (fuel : Nat) (m out : TempMap),
      orderTempsAux fuel m = some out → m.Perm out := by
  intro fuel
  induction fuel with
  | zero =>
      intro m out h
      cases m with
      | nil => simp [orderTempsAux] at h; subst h; exact List.Perm.refl _
      | cons a l => simp [orderTempsAux] at h
  | succ fuel ih =>
      intro m out h
      cases m with
      | nil => simp [orderTempsAux] at h; subst h; exact List.Perm.refl _
      | cons a l =>
          rw [orderTempsAux] at h
          cases hext : extractFirst (fun e => readyEntry e (a :: l)) (a :: l) with
          | none => rw [hext] at h; simp at h
          | some r =>
              rw [hext] at h
              obtain ⟨e, rest⟩ := r
              simp only [Option.map_eq_some'] at h
              obtain ⟨l', haux, hout⟩ := h
              subst hout
              exact ((extractFirst_eq_some hext).2).trans ((ih rest l' haux).cons e)

/-- No entry of the list textually references the name of a later entry:
the emitted block has no forward reference. -/
def noFwd : TempMap → Prop
  | [] => True
  | e :: rest =>
      (∀ b ∈ rest, b.1 ≠ e.1 → occursIn b.1 e.2.body = false) ∧ noFwd rest

theorem readyEntry_spec {e : String × TempInfo} {m : TempMap}
    (h : readyEntry e m = true) :
    ∀ b ∈ m, b.1 ≠ e.1 → occursIn b.1 e.2.body = false := by
  intro b hb hne
  unfold readyEntry TempInfo.dependsOn at h
  rw [Bool.not_eq_eq_eq_not, Bool.not_true, List.any_eq_false] at h
  have hmem : b.1 ∈ (m.map Prod.fst).filter (fun n => n != e.1) :=
    List.mem_filter.mpr ⟨List.mem_map_of_mem Prod.fst hb, by simpa using hne⟩
  simpa using h b.1 hmem

theorem orderTempsAux_noFwd :
    ∀ (fuel : Nat) (m out : TempMap),
      orderTempsAux fuel m = some out → noFwd out := by
  intro fuel
  induction fuel with
  | zero =>
      intro m out h
      cases m with
      | nil => simp [orderTempsAux] at h; subst h; trivial
      | cons a l => simp [orderTempsAux] at h
  | succ fuel ih =>
      intro m out h
      cases m with
      | nil => simp [orderTempsAux] at h; subst h; trivial
      | cons a l =>
          rw [orderTempsAux] at h
          cases hext : extractFirst (fun e => readyEntry e (a :: l)) (a :: l) with
          | none => rw [hext] at h; simp at h
          | some r =>
              rw [hext] at h
              obtain ⟨e, rest⟩ := r
              simp only [Option.map_eq_some'] at h
              obtain ⟨l', haux, hout⟩ := h
              subst hout
              obtain ⟨hready, hperm⟩ := extractFirst_eq_some hext
              refine ⟨?_, ih rest l' haux⟩
              intro b hb hne
              have hbm : b ∈ (a :: l) :=
                hperm.mem_iff.mpr (List.mem_cons_of_mem e
                  ((orderTempsAux_perm fuel rest l' haux).mem_iff.mpr hb))
              exact readyEntry_spec hready b hbm hne

theorem noFwd_indexOf_lt :
    ∀ (out : TempMap) (A B : String × TempInfo),
      noFwd out → (out.map Prod.fst).Nodup →
      A ∈ out → B ∈ out → B.1 ≠ A.1 → occursIn B.1 A.2.body = true →
      (out.map Prod.fst).indexOf B.1 < (out.map Prod.fst).indexOf A.1 := by
  intro out
  induction out with
  | nil => intro A B _ _ hA; simp at hA
  | cons e rest ih =>
      intro A B hfwd hnd hA hB hne hdep
      obtain ⟨hhead, htail⟩ := hfwd
      rw [List.map_cons, List.nodup_cons] at hnd
      obtain ⟨hnotin, hndrest⟩ := hnd
      rcases List.mem_cons.mp hA with hAe | hArest
      · subst hAe
        rcases List.mem_cons.mp hB with hBe | hBrest
        · subst hBe; exact absurd rfl hne
        · exact absurd hdep (by simp [hhead B hBrest hne])
      · have hAne : A.1 ≠ e.1 := by
          intro hcontra
          exact hnotin (hcontra ▸ List.mem_map_of_mem Prod.fst hArest)
        rcases List.mem_cons.mp hB with hBe | hBrest
        · subst hBe
          rw [List.map_cons, List.indexOf_cons_self,
            List.indexOf_cons_ne _ (fun hc => hAne hc.symm)]
          exact Nat.succ_pos _
        · have hBne : B.1 ≠ e.1 := by
            intro hcontra
            exact hnotin (hcontra ▸ List.mem_map_of_mem Prod.fst hBrest)
          rw [List.map_cons, List.indexOf_cons_ne _ (fun hc => hBne hc.symm),
            List.indexOf_cons_ne _ (fun hc => hAne hc.symm)]
          exact Nat.succ_lt_succ (ih A B htail hndrest hArest hBrest hne hdep)

/-- C5: the emission order computed by `orderedTempVals` respects
dependencies — whenever the ordering succeeds on a table of uniquely named
temporaries and temporary `A`'s body references temporary `B`'s name (per
`TempInfo::dependsOn`'s textual test), `B`'s declaration precedes `A`'s in
the emitted order, for every registration order of the table. -/
theorem orderTemps_dependency_order (m out : TempMap) (A B : String × TempInfo)
    (hnd : (m.map Prod.fst).Nodup)
    (h : orderTemps m = some out)
    (hA : A ∈ m) (hB : B ∈ m)
    (hne : B.1 ≠ A.1)
    (hdep : occursIn B.1 A.2.body = true) :
    (out.map Prod.fst).indexOf B.1 < (out.map Prod.fst).indexOf A.1 := by
  have hperm := orderTempsAux_perm m.length m out h
  have hfwd := orderTempsAux_noFwd m.length m out h
  have hndout : (out.map Prod.fst).Nodup :=
    ((hperm.map Prod.fst).nodup_iff).mp hnd
  exact noFwd_indexOf_lt out A B hfwd hndout (hperm.mem_iff.mp hA)
    (hperm.mem_iff.mp hB) hne hdep

/-- Witness for C5 at a concrete input: temporary `tA` is registered before
`tB` yet its body references `tB`, so the computed emission order places
`tB`'s declaration strictly before `tA`'s. -/
theorem orderTemps_dependency_order_witness :
    (([("tB", (⟨.GLKS_FLOAT4, "pos"⟩ : TempInfo)),
       ("tA", (⟨.GLKS_FLOAT4, "tB + one"⟩ : TempInfo))].map Prod.fst).indexOf "tB" <
     ([("tB", (⟨.GLKS_FLOAT4, "pos"⟩ : TempInfo)),
       ("tA", (⟨.GLKS_FLOAT4, "tB + one"⟩ : TempInfo))].map Prod.fst).indexOf "tA") :=
  orderTemps_dependency_order
    [("tA", ⟨.GLKS_FLOAT4, "tB + one"⟩), ("tB", ⟨.GLKS_FLOAT4, "pos"⟩)]
    [("tB", ⟨.GLKS_FLOAT4, "pos"⟩), ("tA", ⟨.GLKS_FLOAT4, "tB + one"⟩)]
    ("tA", ⟨.GLKS_FLOAT4, "tB + one"⟩) ("tB", ⟨.GLKS_FLOAT4, "pos"⟩)
    (by decide) (by decide) (by decide) (by decide) (by decide) (by decide)

/-- Lookup in the modelled temporary table: the value of the first entry
carrying the name. -/
def tempLookup (m : TempMap) (name : String) : Option TempInfo :=
  match m with
  | [] => none
  | (k, i) :: rest => if k = name then some i else tempLookup rest name

theorem tempInsert_replace_lookup (name : String) (info : TempInfo) :
    ∀ m : TempMap, m.any (fun p => p.1 == name) = true →
      tempLookup (m.map (fun p => if p.1 = name then (name, info) else p)) name =
        some info := by
  intro m
  induction m with
  | nil => intro h; simp at h
  | cons p l ih =>
      intro h
      obtain ⟨k, q⟩ := p
      by_cases hk : k = name
      · subst hk
        have hmap : ((k, q) :: l).map (fun p => if p.1 = k then (k, info) else p) =
            (k, info) :: l.map (fun p => if p.1 = k then (k, info) else p) := by
          simp
        rw [hmap]
        simp [tempLookup]
      · have hkb : (k == name) = false := beq_eq_false_iff_ne.mpr hk
        have hl : l.any (fun p => p.1 == name) = true := by
          simpa [List.any_cons, hkb] using h
        have hmap : ((k, q) :: l).map (fun p => if p.1 = name then (name, info) else p) =
            (k, q) :: l.map (fun p => if p.1 = name then (name, info) else p) := by
          simp [hk]
        rw [hmap]
        simpa [tempLookup, hk] using ih hl

theorem tempLookup_append_absent (name : String) (info : TempInfo) :
    ∀ m : TempMap, (∀ p ∈ m, p.1 ≠ name) →
      tempLookup (m ++ [(name, info)]) name = some info := by
  intro m
  induction m with
  | nil => intro _; simp [tempLookup]
  | cons p l ih =>
      intro h
      obtain ⟨k, q⟩ := p
      have hk : k ≠ name := h (k, q) (List.mem_cons_self _ _)
      simpa [tempLookup, hk] using ih (fun p hp => h p (List.mem_cons_of_mem _ hp))

theorem tempInsert_lookup (m : TempMap) (name : String) (info : TempInfo) :
    tempLookup (tempInsert m name info) name = some info := by
  unfold tempInsert
  by_cases h : m.any (fun p => p.1 == name) = true
  · simp only [h, if_true]
    exact tempInsert_replace_lookup name info m h
  · rw [Bool.not_eq_true] at h
    simp only [h, Bool.false_eq_true, if_false]
    refine tempLookup_append_absent name info m fun p hp hc => ?_
    have := List.any_eq_false.mp h p hp
    exact this (by simpa using hc)

theorem tempInsert_replace_keys (name : String) (info : TempInfo) :
    ∀ m : TempMap,
      (m.map (fun p => if p.1 = name then (name, info) else p)).map Prod.fst =
        m.map Prod.fst := by
  intro m
  induction m with
  | nil => rfl
  | cons p l ih =>
      obtain ⟨k, q⟩ := p
      by_cases hk : k = name
      · subst hk
        have hmap : ((k, q) :: l).map (fun p => if p.1 = k then (k, info) else p) =
            (k, info) :: l.map (fun p => if p.1 = k then (k, info) else p) := by
          simp
        rw [hmap, List.map_cons, List.map_cons, ih]
      · have hmap : ((k, q) :: l).map (fun p => if p.1 = name then (name, info) else p) =
            (k, q) :: l.map (fun p => if p.1 = name then (name, info) else p) := by
          simp [hk]
        rw [hmap, List.map_cons, List.map_cons, ih]

theorem tempInsert_keys_nodup (m : TempMap) (name : String) (info : TempInfo)
    (h : (m.map Prod.fst).Nodup) :
    ((tempInsert m name info).map Prod.fst).Nodup := by
  unfold tempInsert
  by_cases ha : m.any (fun p => p.1 == name) = true
  · simp only [ha, if_true]
    rw [tempInsert_replace_keys]
    exact h
  · rw [Bool.not_eq_true] at ha
    simp only [ha, Bool.false_eq_true, if_false]
    rw [List.map_append]
    have hnotin : name ∉ m.map Prod.fst := by
      intro hc
      obtain ⟨p, hp, hfst⟩ := List.mem_map.mp hc
      exact (List.any_eq_false.mp ha p hp) (by simpa using hfst)
    refine List.Nodup.append h (List.nodup_singleton name) ?_
    intro a haml hasing
    simp only [List.map_cons, List.map_nil, List.mem_singleton] at hasing
    subst hasing
    exact hnotin haml

/-- C9: duplicate temporary registration is unchecked and silent — the
insertion used by `addTempVal`/`addTempFunc` replaces an earlier entry with
the same name in place, the later body winning; temporary names stay unique
per table, and the ordering emitting the declaration block permutes the
table, so no name is ever declared twice in the emitted block. -/
theorem addTempVal_overwrite_policy (c : ShaderContext) (t : GLKShaderVarType)
    (name bdy : String) (m : TempMap) :
    (c.vertexStage = true →
      (c.addTempVal t name bdy).vsTempVals = tempInsert c.vsTempVals name ⟨t, bdy⟩) ∧
    (c.vertexStage = false →
      (c.addTempVal t name bdy).psTempVals = tempInsert c.psTempVals name ⟨t, bdy⟩) ∧
    (tempLookup (tempInsert m name ⟨t, bdy⟩) name = some ⟨t, bdy⟩) ∧
    ((m.map Prod.fst).Nodup → ((tempInsert m name ⟨t, bdy⟩).map Prod.fst).Nodup) ∧
    (∀ l, orderTemps m = some l → (m.map Prod.fst).Nodup →
      (l.map Prod.fst).Nodup) := by
  refine ⟨fun hs => ?_, fun hs => ?_, tempInsert_lookup m name ⟨t, bdy⟩,
    fun hnd => tempInsert_keys_nodup m name ⟨t, bdy⟩ hnd, fun l hord hnd => ?_⟩
  · simp [ShaderContext.addTempVal, hs]
  · simp [ShaderContext.addTempVal, hs]
  · exact (((orderTempsAux_perm m.length m l hord).map Prod.fst).nodup_iff).mp hnd

/-- Witness for C9 at a concrete input: inserting `t0` a second time leaves
a single `t0` entry whose body is the later one. -/
theorem addTempVal_overwrite_policy_witness :
    tempLookup (tempInsert [("t0", (⟨.GLKS_FLOAT, "old"⟩ : TempInfo))] "t0"
        ⟨.GLKS_FLOAT, "new"⟩) "t0" = some ⟨.GLKS_FLOAT, "new"⟩ ∧
    ((tempInsert [("t0", (⟨.GLKS_FLOAT, "old"⟩ : TempInfo))] "t0"
        ⟨.GLKS_FLOAT, "new"⟩).map Prod.fst).Nodup :=
  ⟨(addTempVal_overwrite_policy (freshContext []) .GLKS_FLOAT "t0" "new"
      [("t0", ⟨.GLKS_FLOAT, "old"⟩)]).2.2.1,
   (addTempVal_overwrite_policy (freshContext []) .GLKS_FLOAT "t0" "new"
      [("t0", ⟨.GLKS_FLOAT, "old"⟩)]).2.2.2.1 (by decide)⟩
